import Mathlib

/-!
Shallow embedding of `src/poker/js/evaluatePokerHand.js` from the
`interpoker` repository, together with proofs of the specification's
claims about the hand classifier.

Each named local constant of the JavaScript function (`ranks`, `suits`,
`rankCounts`, `descendingOrder`, `numPairs`, `hasThree`, `hasFour`,
`isFlush`, `ranksAceHigh`, `uniqueAceHigh`, `sortedCards`,
`wheelStraight`, `isStraight`, `straightHigh`) is embedded as a Lean
definition of the extracted rank/suit lists.  JavaScript numbers holding
card ranks are modelled as `Int` (so that out-of-range and negative
ranks of malformed input stay representable); suit values are `String`.
`Array.prototype.sort` with a numeric comparator is a
stable sort, modelled by `List.insertionSort` (also stable, and any two
stable sorts under a total preorder agree); `new Set(...)` spread keeps
first occurrences, modelled by `jsSetDedup`; the `Map` accumulation of
`rankCounts` is an association list in first-insertion order.
`toLowerCase()` is modelled by `lowerString`, mapping `Char.toLower`
over the string's characters (JS `toLowerCase` restricted to the ASCII
range, which covers every suit string the program documents).
-/

/-- Model of JS `String.prototype.toLowerCase` on ASCII strings: lower
each character. -/
def lowerString (s : String) : String :=
  String.mk (s.data.map Char.toLower)

/-- A playing card as consumed by `evaluatePokerHand`: a numeric `rank`
and a `suit` string.  The JSDoc documents ranks 1–13 and four suit
strings, but the function itself accepts arbitrary values, so the
embedding does not restrict them. -/
structure Card where
  rank : Int
  suit : String
deriving DecidableEq, Repr

/-- One step of the `rankCounts` Map accumulation: bump the count of
`r`, inserting it at the end with count 1 when absent (JS `Map` keeps
first-insertion key order). -/
def insertCount (m : List (Int × Nat)) (r : Int) : List (Int × Nat) :=
  match m with
  | [] => [(r, 1)]
  | (k, v) :: rest => if k = r then (k, v + 1) :: rest else (k, v) :: insertCount rest r

/-- The `rankCounts` Map of the source: rank ↦ occurrence count, in
first-occurrence order of the ranks. -/
def rankCounts (ranks : List Int) : List (Int × Nat) :=
  ranks.foldl insertCount []

/-- `[...rankCounts.values()]`. -/
def countValues (ranks : List Int) : List Nat :=
  (rankCounts ranks).map Prod.snd

/-- `[...rankCounts.values()].sort((a, b) => b - a)`: the counts sorted
descending. -/
def descendingOrder (ranks : List Int) : List Nat :=
  List.insertionSort (fun a b => a ≥ b) (countValues ranks)

/-- `numPairs`: how many ranks occur exactly twice. -/
def numPairs (ranks : List Int) : Nat :=
  ((countValues ranks).filter (fun v => v = 2)).length

/-- `hasThree`: `descendingOrder[0] === 3` (JS yields `false` on an
empty array, as does the default 0 here since counts are positive). -/
def hasThree (ranks : List Int) : Bool :=
  (descendingOrder ranks).headD 0 = 3

/-- `hasFour`: `descendingOrder[0] === 4`. -/
def hasFour (ranks : List Int) : Bool :=
  (descendingOrder ranks).headD 0 = 4

/-- `isFlush` over the already-lowercased suit list:
`suits.every(suit => suit === suits[0])`. -/
def isFlushSuits (suits : List String) : Bool :=
  suits.all (fun suit => suit = suits.headD "")

/-- `ranksAceHigh`: map rank 1 (Ace) to 14, then sort ascending. -/
def ranksAceHigh (ranks : List Int) : List Int :=
  List.insertionSort (fun a b => a ≤ b) (ranks.map (fun rank => if rank = 1 then 14 else rank))

/-- `[...new Set(list)]`: remove duplicates keeping first occurrences. -/
def jsSetDedup (l : List Int) : List Int :=
  l.foldl (fun acc x => if x ∈ acc then acc else acc ++ [x]) []

/-- `uniqueAceHigh`: the deduplicated ace-high sorted ranks. -/
def uniqueAceHigh (ranks : List Int) : List Int :=
  jsSetDedup (ranksAceHigh ranks)

/-- The loop body of the source's `isConsecutive`: every adjacent pair
of the list increases by exactly 1. -/
def consecutivePairs : List Int → Bool
  | a :: b :: rest => b - a = 1 && consecutivePairs (b :: rest)
  | _ => true

/-- The source's inner `isConsecutive` helper: exactly 5 entries, each
1 greater than the previous. -/
def isConsecutive (sortedRanks : List Int) : Bool :=
  sortedRanks.length = 5 && consecutivePairs sortedRanks

/-- `sortedCards`: the raw (unmapped) ranks sorted ascending. -/
def sortedCards (ranks : List Int) : List Int :=
  List.insertionSort (fun a b => a ≤ b) ranks

/-- The source's wheel loop: index-by-index comparison of the sorted
ranks against the pattern; an index beyond the pattern reads JS
`undefined` and can never equal a number, so a longer list fails. -/
def wheelCheck : List Int → List Int → Bool
  | [], _ => true
  | _ :: _, [] => false
  | x :: xs, p :: ps => x = p && wheelCheck xs ps

/-- `wheelStraight`: the sorted raw ranks match the literal pattern
`[1, 2, 3, 4, 5]`. -/
def wheelStraight (ranks : List Int) : Bool :=
  wheelCheck (sortedCards ranks) [1, 2, 3, 4, 5]

/-- `isStraight`: the ace-high path (5 distinct consecutive mapped
ranks) or the wheel path. -/
def isStraight (ranks : List Int) : Bool :=
  (uniqueAceHigh ranks).length = 5 && isConsecutive (uniqueAceHigh ranks) || wheelStraight ranks

/-- `straightHigh`: 5 on the wheel, else `ranksAceHigh[4]` (the default
0 models JS `undefined` and is unreachable for 5-card hands). -/
def straightHigh (ranks : List Int) : Int :=
  if wheelStraight ranks then 5 else (ranksAceHigh ranks).getD 4 0

/-- The decision cascade of `evaluatePokerHand`, as a function of the
extracted rank list and lowercased suit list. -/
def evalRanksSuits (ranks : List Int) (suits : List String) : String :=
  if isStraight ranks && isFlushSuits suits then
    if straightHigh ranks = 14 && (ranksAceHigh ranks).getD 0 0 = 10 then "royalflush"
    else "straightflush"
  else if hasFour ranks then "fourofakind"
  else if hasThree ranks && numPairs ranks = 1 then "fullhouse"
  else if isFlushSuits suits then "flush"
  else if isStraight ranks then "straight"
  else if hasThree ranks then "threeofakind"
  else if numPairs ranks = 2 then "twopair"
  else if numPairs ranks = 1 then "pair"
  else "highcard"

/-- `evaluatePokerHand(hand)`: extract ranks and lowercased suits, then
run the cascade. -/
def evaluatePokerHand (hand : List Card) : String :=
  evalRanksSuits (hand.map (fun card => card.rank)) (hand.map (fun card => lowerString card.suit))

/-- The hand-level `isFlush` constant of the source. -/
def isFlushHand (hand : List Card) : Bool :=
  isFlushSuits (hand.map (fun card => lowerString card.suit))

/-- The hand-level `isStraight` constant of the source. -/
def isStraightHand (hand : List Card) : Bool :=
  isStraight (hand.map (fun card => card.rank))

/-- The hand-level `straightHigh` constant of the source. -/
def straightHighHand (hand : List Card) : Int :=
  straightHigh (hand.map (fun card => card.rank))

/-- The hand-level `ranksAceHigh` constant of the source. -/
def ranksAceHighHand (hand : List Card) : List Int :=
  ranksAceHigh (hand.map (fun card => card.rank))

example : evaluatePokerHand
    [⟨1, "club"⟩, ⟨2, "diamond"⟩, ⟨3, "spade"⟩, ⟨4, "heart"⟩, ⟨5, "club"⟩] = "straight" := by
  decide

example : evaluatePokerHand
    [⟨10, "spade"⟩, ⟨11, "spade"⟩, ⟨12, "spade"⟩, ⟨13, "spade"⟩, ⟨1, "spade"⟩] = "royalflush" := by
  decide

example : evaluatePokerHand
    [⟨7, "club"⟩, ⟨7, "heart"⟩, ⟨7, "spade"⟩, ⟨7, "diamond"⟩, ⟨2, "club"⟩] = "fourofakind" := by
  decide

example : evaluatePokerHand
    [⟨13, "Club"⟩, ⟨13, "club"⟩, ⟨13, "CLUB"⟩, ⟨5, "cLub"⟩, ⟨5, "CLub"⟩] = "fullhouse" := by
  decide

/-!  General helper lemmas about the embedded definitions. -/

lemma listLengthFive {α : Type} {l : List α} (h : l.length = 5) :
    ∃ a b c d e, l = [a, b, c, d, e] := by
  cases l with
  | nil => simp at h
  | cons a t =>
    cases t with
    | nil => simp at h
    | cons b t =>
      cases t with
      | nil => simp at h
      | cons c t =>
        cases t with
        | nil => simp at h
        | cons d t =>
          cases t with
          | nil => simp at h
          | cons e t =>
            cases t with
            | nil => exact ⟨a, b, c, d, e, rfl⟩
            | cons f t => simp at h
lemma ranksAceHigh_sorted (ranks : List Int) :
    (ranksAceHigh ranks).Sorted (fun a b => a ≤ b) :=
  List.sorted_insertionSort _ _

lemma ranksAceHigh_perm (ranks : List Int) :
    (ranksAceHigh ranks).Perm (ranks.map (fun rank => if rank = 1 then 14 else rank)) :=
  List.perm_insertionSort _ _

lemma ranksAceHigh_length (ranks : List Int) :
    (ranksAceHigh ranks).length = ranks.length := by
  rw [(ranksAceHigh_perm ranks).length_eq, List.length_map]

lemma sorted_five_last_max {a b c d e : Int}
    (h : List.Sorted (fun x y => x ≤ y) [a, b, c, d, e]) :
    ∀ x ∈ [a, b, c, d, e], x ≤ e := by
  simp only [List.sorted_cons, List.mem_cons, List.not_mem_nil, or_false,
    List.mem_singleton, forall_eq_or_imp, forall_eq, List.sorted_singleton] at h
  intro x hx
  simp only [List.mem_cons, List.mem_singleton, List.not_mem_nil, or_false] at hx
  rcases hx with rfl | rfl | rfl | rfl | rfl <;> omega

lemma evalRanksSuits_of_straight_flush {ranks : List Int} {suits : List String}
    (h1 : isStraight ranks = true) (h2 : isFlushSuits suits = true) :
    evalRanksSuits ranks suits =
      if straightHigh ranks = 14 ∧ (ranksAceHigh ranks).getD 0 0 = 10 then "royalflush"
      else "straightflush" := by
  unfold evalRanksSuits
  rw [h1, h2]
  by_cases hc : straightHigh ranks = 14 ∧ (ranksAceHigh ranks).getD 0 0 = 10
  · simp [hc.1, hc.2]
  · rw [if_neg hc]
    simp only [Bool.and_self, if_true]
    rw [if_neg]
    simp only [Bool.and_eq_true, decide_eq_true_eq]
    exact hc

/-- The priority cascade exactly as the specification's §4.4 Category
Resolver words it, as a function of the six facts it consumes.  This is
the refinement-side definition: `spec_C1` compares the source-embedded
`evalRanksSuits` against it. -/
def specCategoryResolver (isStr isFl : Bool) (sHigh lowMapped : Int)
    (hFour hThree : Bool) (nPairs : Nat) : String :=
  if isStr && isFl then
    if sHigh = 14 && lowMapped = 10 then "royalflush" else "straightflush"
  else if hFour then "fourofakind"
  else if hThree && nPairs = 1 then "fullhouse"
  else if isFl then "flush"
  else if isStr then "straight"
  else if hThree then "threeofakind"
  else if nPairs = 2 then "twopair"
  else if nPairs = 1 then "pair"
  else "highcard"

/-- C1: the Category Resolver checks its nine conditions in exactly the
order straight-flush, four of a kind, full house, flush, straight, three
of a kind, two pair, pair, high card (first match wins, as the
spec-worded `specCategoryResolver` does), and every hand satisfying both
`isStraight` and `isFlush` classifies as "straightflush" or
"royalflush", never merely "flush" or "straight". -/
theorem spec_C1 :
    (∀ (ranks : List Int) (suits : List String),
      evalRanksSuits ranks suits =
        specCategoryResolver (isStraight ranks) (isFlushSuits suits) (straightHigh ranks)
          ((ranksAceHigh ranks).getD 0 0) (hasFour ranks) (hasThree ranks) (numPairs ranks)) ∧
    (∀ hand : List Card, isStraightHand hand = true → isFlushHand hand = true →
      evaluatePokerHand hand = "royalflush" ∨ evaluatePokerHand hand = "straightflush") := by
  constructor
  · intro ranks suits
    rfl
  · intro hand h1 h2
    unfold isStraightHand at h1
    unfold isFlushHand at h2
    unfold evaluatePokerHand
    rw [evalRanksSuits_of_straight_flush h1 h2]
    split
    · exact Or.inl rfl
    · exact Or.inr rfl

theorem spec_C1_witness :
    evaluatePokerHand
        [⟨10, "spade"⟩, ⟨11, "spade"⟩, ⟨12, "spade"⟩, ⟨13, "spade"⟩, ⟨1, "spade"⟩] = "royalflush" ∨
    evaluatePokerHand
        [⟨10, "spade"⟩, ⟨11, "spade"⟩, ⟨12, "spade"⟩, ⟨13, "spade"⟩, ⟨1, "spade"⟩] = "straightflush" :=
  spec_C1.2 _ (by decide) (by decide)

/-- The royal flush test hand of the spec: {10, J, Q, K, A} of spades. -/
def royalSpadesHand : List Card :=
  [⟨10, "spade"⟩, ⟨11, "spade"⟩, ⟨12, "spade"⟩, ⟨13, "spade"⟩, ⟨1, "spade"⟩]

/-- C3: when `isStraight` and `isFlush` both hold, the result is
"royalflush" iff `straightHigh = 14` and the lowest ace-high-mapped rank
is 10, and "straightflush" otherwise; and the spade royal hand returns
"royalflush". -/
theorem spec_C3 :
    (∀ hand : List Card, isStraightHand hand = true → isFlushHand hand = true →
      (evaluatePokerHand hand = "royalflush" ↔
        straightHighHand hand = 14 ∧ (ranksAceHighHand hand).getD 0 0 = 10) ∧
      (¬(straightHighHand hand = 14 ∧ (ranksAceHighHand hand).getD 0 0 = 10) →
        evaluatePokerHand hand = "straightflush")) ∧
    evaluatePokerHand royalSpadesHand = "royalflush" := by
  constructor
  · intro hand h1 h2
    unfold isStraightHand at h1
    unfold isFlushHand at h2
    have h := evalRanksSuits_of_straight_flush h1 h2
    unfold evaluatePokerHand
    rw [h]
    unfold straightHighHand ranksAceHighHand
    by_cases hc : straightHigh (hand.map (fun card => card.rank)) = 14 ∧
        (ranksAceHigh (hand.map (fun card => card.rank))).getD 0 0 = 10
    · rw [if_pos hc]
      exact ⟨⟨fun _ => hc, fun _ => rfl⟩, fun hn => absurd hc hn⟩
    · rw [if_neg hc]
      exact ⟨⟨fun heq => absurd heq (by decide), fun hcc => absurd hcc hc⟩, fun _ => rfl⟩
  · decide

theorem spec_C3_witness :
    evaluatePokerHand royalSpadesHand = "royalflush" ↔
      straightHighHand royalSpadesHand = 14 ∧ (ranksAceHighHand royalSpadesHand).getD 0 0 = 10 :=
  ((spec_C3.1 royalSpadesHand (by decide) (by decide)).1)

/-- The spec's wheel test hand in mixed suits. -/
def wheelMixedHand : List Card :=
  [⟨1, "club"⟩, ⟨2, "diamond"⟩, ⟨3, "spade"⟩, ⟨4, "heart"⟩, ⟨5, "club"⟩]

/-- The spec's wheel test hand entirely in clubs. -/
def wheelClubHand : List Card :=
  [⟨1, "club"⟩, ⟨2, "club"⟩, ⟨3, "club"⟩, ⟨4, "club"⟩, ⟨5, "club"⟩]

/-- C2: the mixed-suit wheel classifies as "straight"; the all-club
wheel classifies as "straightflush" and not "royalflush"; and
`straightHigh` is 5 exactly when the wheel path matched, otherwise the
5th element of the ace-high-mapped ascending-sorted ranks, which for
5-card hands is their maximum (an element that bounds every other). -/
theorem spec_C2 :
    evaluatePokerHand wheelMixedHand = "straight" ∧
    evaluatePokerHand wheelClubHand = "straightflush" ∧
    evaluatePokerHand wheelClubHand ≠ "royalflush" ∧
    (∀ ranks : List Int,
      (wheelStraight ranks = true → straightHigh ranks = 5) ∧
      (wheelStraight ranks = false → straightHigh ranks = (ranksAceHigh ranks).getD 4 0)) ∧
    (∀ ranks : List Int, ranks.length = 5 → wheelStraight ranks = false →
      straightHigh ranks ∈ ranksAceHigh ranks ∧
      ∀ x ∈ ranksAceHigh ranks, x ≤ straightHigh ranks) := by
  refine ⟨by decide, by decide, by decide, ?_, ?_⟩
  · intro ranks
    constructor
    · intro hw
      unfold straightHigh
      rw [if_pos hw]
    · intro hw
      unfold straightHigh
      rw [if_neg (by rw [hw]; exact Bool.false_ne_true)]
  · intro ranks hlen hw
    have hs : straightHigh ranks = (ranksAceHigh ranks).getD 4 0 := by
      unfold straightHigh
      rw [if_neg (by rw [hw]; exact Bool.false_ne_true)]
    have hl : (ranksAceHigh ranks).length = 5 := by
      rw [ranksAceHigh_length, hlen]
    obtain ⟨a, b, c, d, e, habcde⟩ := listLengthFive hl
    have hsorted := ranksAceHigh_sorted ranks
    rw [habcde] at hsorted
    have hmax := sorted_five_last_max hsorted
    rw [hs, habcde]
    refine ⟨by simp, ?_⟩
    intro x hx
    simpa using hmax x hx

theorem spec_C2_witness :
    straightHigh [1, 2, 3, 4, 5] = 5 ∧
    straightHigh [2, 3, 4, 5, 6] = (ranksAceHigh [2, 3, 4, 5, 6]).getD 4 0 ∧
    straightHigh [9, 2, 13, 2, 4] ∈ ranksAceHigh [9, 2, 13, 2, 4] :=
  ⟨(spec_C2.2.2.2.1 [1, 2, 3, 4, 5]).1 (by decide),
   (spec_C2.2.2.2.1 [2, 3, 4, 5, 6]).2 (by decide),
   (spec_C2.2.2.2.2 [9, 2, 13, 2, 4] (by decide) (by decide)).1⟩

/-- The ten category strings of the source's documentation. -/
def allCategories : List String :=
  ["highcard", "pair", "twopair", "threeofakind", "straight", "flush",
   "fullhouse", "fourofakind", "straightflush", "royalflush"]

/-- C5: every 5-element hand — malformed ranks, unrecognized suits and
duplicate cards included — evaluates to one of the ten category
strings; no error and no "no match" outcome exists. -/
theorem spec_C5 :
    ∀ hand : List Card, hand.length = 5 → evaluatePokerHand hand ∈ allCategories := by
  intro hand _
  unfold evaluatePokerHand evalRanksSuits allCategories
  split_ifs <;> simp

/-- A deliberately malformed hand: out-of-range ranks, unrecognized
suit strings, duplicate cards. -/
def malformedHand : List Card :=
  [⟨0, "??"⟩, ⟨0, "??"⟩, ⟨-3, "zz"⟩, ⟨77, "??"⟩, ⟨77, "zz"⟩]

theorem spec_C5_witness : evaluatePokerHand malformedHand ∈ allCategories :=
  spec_C5 malformedHand (by decide)

/-- C6: `isFlush` holds iff all five suits, compared after lowercasing,
equal the first card's suit; suits agreeing only up to letter case still
count as a flush. -/
theorem spec_C6 :
    (∀ c1 c2 c3 c4 c5 : Card,
      isFlushHand [c1, c2, c3, c4, c5] = true ↔
        lowerString c2.suit = lowerString c1.suit ∧
        lowerString c3.suit = lowerString c1.suit ∧
        lowerString c4.suit = lowerString c1.suit ∧
        lowerString c5.suit = lowerString c1.suit) ∧
    isFlushHand [⟨1, "Club"⟩, ⟨5, "club"⟩, ⟨9, "CLUB"⟩, ⟨11, "cLuB"⟩, ⟨13, "club"⟩] = true := by
  constructor
  · intro c1 c2 c3 c4 c5
    unfold isFlushHand isFlushSuits
    simp only [List.map_cons, List.map_nil, List.all_cons, List.all_nil, List.headD_cons,
      Bool.and_eq_true, decide_eq_true_eq, Bool.and_true]
    tauto
  · decide

/-- C8: the classifier is deterministic and pure — any two hands with
identical rank and suit values evaluate to the same category. -/
theorem spec_C8 :
    ∀ hand1 hand2 : List Card,
      hand1.map (fun card => (card.rank, card.suit)) =
        hand2.map (fun card => (card.rank, card.suit)) →
      evaluatePokerHand hand1 = evaluatePokerHand hand2 := by
  intro hand1 hand2 heq
  have hinj : Function.Injective (fun card : Card => (card.rank, card.suit)) := by
    intro a b hab
    cases a
    cases b
    simpa using hab
  rw [List.map_injective_iff.mpr hinj heq]

theorem spec_C8_witness : evaluatePokerHand royalSpadesHand = evaluatePokerHand royalSpadesHand :=
  spec_C8 royalSpadesHand royalSpadesHand rfl

lemma consecutivePairs_iff_chain (l : List Int) :
    consecutivePairs l = true ↔ List.Chain' (fun a b => b - a = 1) l := by
  induction l with
  | nil => simp [consecutivePairs]
  | cons a t ih =>
    cases t with
    | nil => simp [consecutivePairs]
    | cons b t2 =>
      rw [consecutivePairs, List.chain'_cons, Bool.and_eq_true, decide_eq_true_eq]
      exact and_congr_right fun _ => ih

lemma wheelCheck_eq_iff :
    ∀ l p : List Int, l.length = p.length → (wheelCheck l p = true ↔ l = p) := by
  intro l
  induction l with
  | nil =>
    intro p hp
    cases p with
    | nil => simp [wheelCheck]
    | cons y ys => simp at hp
  | cons x xs ih =>
    intro p hp
    cases p with
    | nil => simp at hp
    | cons y ys =>
      rw [wheelCheck, Bool.and_eq_true, decide_eq_true_eq, ih ys (by simpa using hp)]
      simp [List.cons.injEq]

lemma sortedCards_length (ranks : List Int) : (sortedCards ranks).length = ranks.length :=
  (List.perm_insertionSort _ _).length_eq

lemma isStraight_iff {ranks : List Int} (h : ranks.length = 5) :
    isStraight ranks = true ↔
      ((uniqueAceHigh ranks).length = 5 ∧
        List.Chain' (fun a b => b - a = 1) (uniqueAceHigh ranks)) ∨
      sortedCards ranks = [1, 2, 3, 4, 5] := by
  unfold isStraight wheelStraight isConsecutive
  have hw := wheelCheck_eq_iff (sortedCards ranks) [1, 2, 3, 4, 5]
    (by rw [sortedCards_length, h]; rfl)
  simp only [Bool.or_eq_true, Bool.and_eq_true, decide_eq_true_eq,
    consecutivePairs_iff_chain, hw]
  tauto

lemma eval_not_straight {ranks : List Int} {suits : List String}
    (h : isStraight ranks = false) :
    evalRanksSuits ranks suits ≠ "straight" ∧
    evalRanksSuits ranks suits ≠ "straightflush" ∧
    evalRanksSuits ranks suits ≠ "royalflush" := by
  unfold evalRanksSuits
  rw [h]
  simp only [Bool.false_and, Bool.false_eq_true, if_false]
  split_ifs <;> exact ⟨by decide, by decide, by decide⟩

/-- C4: `isStraight` holds iff the deduplicated ace-high-mapped sorted
ranks form 5 values each 1 apart, or the raw ranks sorted ascending are
exactly [1,2,3,4,5]; and the straight-family categories can only be
returned when `isStraight` holds. -/
theorem spec_C4 :
    ∀ hand : List Card, hand.length = 5 →
      (isStraightHand hand = true ↔
        ((uniqueAceHigh (hand.map (fun card => card.rank))).length = 5 ∧
          List.Chain' (fun a b => b - a = 1)
            (uniqueAceHigh (hand.map (fun card => card.rank)))) ∨
        sortedCards (hand.map (fun card => card.rank)) = [1, 2, 3, 4, 5]) ∧
      ((evaluatePokerHand hand = "straight" ∨ evaluatePokerHand hand = "straightflush" ∨
        evaluatePokerHand hand = "royalflush") → isStraightHand hand = true) := by
  intro hand h
  have hlen : (hand.map (fun card => card.rank)).length = 5 := by simpa using h
  constructor
  · exact isStraight_iff hlen
  · intro hcat
    rcases Bool.eq_false_or_eq_true (isStraightHand hand) with hb | hb
    · exact hb
    · exfalso
      unfold isStraightHand at hb
      have hne := @eval_not_straight (hand.map (fun card => card.rank))
        (hand.map (fun card => lowerString card.suit)) hb
      unfold evaluatePokerHand at hcat
      rcases hcat with hx | hx | hx
      · exact hne.1 hx
      · exact hne.2.1 hx
      · exact hne.2.2 hx

theorem spec_C4_witness : isStraightHand wheelMixedHand = true :=
  (spec_C4 wheelMixedHand (by decide)).2 (Or.inl (by decide))

/-!  Association-list lemmas for the `rankCounts` Map accumulation. -/

lemma insertCount_keys (m : List (Int × Nat)) (r : Int) :
    (insertCount m r).map Prod.fst =
      if r ∈ m.map Prod.fst then m.map Prod.fst else m.map Prod.fst ++ [r] := by
  induction m with
  | nil => simp [insertCount]
  | cons p rest ih =>
    obtain ⟨k, v⟩ := p
    rw [insertCount]
    by_cases hk : k = r
    · subst hk
      simp
    · rw [if_neg hk]
      simp only [List.map_cons, List.mem_cons]
      rw [ih]
      by_cases hr : r ∈ rest.map Prod.fst
      · rw [if_pos hr, if_pos (Or.inr hr)]
      · rw [if_neg hr, if_neg (by rintro (hr2 | hr2) <;> [exact hk hr2.symm; exact hr hr2])]
        simp

lemma insertCount_keys_nodup {m : List (Int × Nat)} (r : Int)
    (h : (m.map Prod.fst).Nodup) : ((insertCount m r).map Prod.fst).Nodup := by
  rw [insertCount_keys]
  split_ifs with hr
  · exact h
  · simp [List.nodup_append, h, hr]

lemma mem_insertCount_ne {m : List (Int × Nat)} {r s : Int} {n : Nat} (h : s ≠ r) :
    ((s, n) ∈ insertCount m r) ↔ (s, n) ∈ m := by
  induction m with
  | nil => simp [insertCount, Prod.mk.injEq, h]
  | cons p rest ih =>
    obtain ⟨k, v⟩ := p
    rw [insertCount]
    by_cases hk : k = r
    · subst hk
      rw [if_pos rfl]
      simp only [List.mem_cons, Prod.mk.injEq]
      constructor
      · rintro (⟨h1, h2⟩ | h1)
        · exact absurd h1 h
        · exact Or.inr h1
      · rintro (⟨h1, h2⟩ | h1)
        · exact absurd h1 h
        · exact Or.inr h1
    · rw [if_neg hk]
      simp only [List.mem_cons, ih]

lemma mem_insertCount_self {m : List (Int × Nat)} {r : Int} {n : Nat}
    (hm : (m.map Prod.fst).Nodup) :
    ((r, n) ∈ insertCount m r) ↔
      (∃ v, (r, v) ∈ m ∧ n = v + 1) ∨ (r ∉ m.map Prod.fst ∧ n = 1) := by
  induction m with
  | nil => simp [insertCount]
  | cons p rest ih =>
    obtain ⟨k, v⟩ := p
    rw [insertCount]
    simp only [List.map_cons, List.nodup_cons] at hm
    by_cases hk : k = r
    · subst hk
      rw [if_pos rfl]
      have hknot : k ∉ rest.map Prod.fst := hm.1
      simp only [List.mem_cons, Prod.mk.injEq, true_and, List.map_cons]
      constructor
      · rintro (h1 | h1)
        · exact Or.inl ⟨v, Or.inl rfl, h1⟩
        · exact absurd (List.mem_map_of_mem Prod.fst h1) hknot
      · rintro (⟨w, hw, hn⟩ | ⟨habs, _⟩)
        · rcases hw with h1 | h1
          · exact Or.inl (h1 ▸ hn)
          · exact absurd (List.mem_map_of_mem Prod.fst h1) hknot
        · exact absurd (Or.inl trivial) habs
    · rw [if_neg hk]
      have hrk : r ≠ k := fun hr => hk hr.symm
      simp only [List.mem_cons, Prod.mk.injEq, ih hm.2]
      constructor
      · rintro (⟨h1, _⟩ | h1)
        · exact absurd h1.symm hk
        · rcases h1 with ⟨w, hw, hn⟩ | ⟨hnk, hn⟩
          · exact Or.inl ⟨w, Or.inr hw, hn⟩
          · exact Or.inr ⟨by simp [hrk, hnk], hn⟩
      · rintro (⟨w, hw, hn⟩ | ⟨hnk, hn⟩)
        · rcases hw with ⟨h1, h2⟩ | h1
          · exact absurd h1.symm hk
          · exact Or.inr (Or.inl ⟨w, h1, hn⟩)
        · simp only [List.map_cons, List.mem_cons] at hnk
          push_neg at hnk
          exact Or.inr (Or.inr ⟨hnk.2, hn⟩)

lemma foldl_insertCount_keys_nodup (l : List Int) :
    ∀ m : List (Int × Nat), (m.map Prod.fst).Nodup →
      ((l.foldl insertCount m).map Prod.fst).Nodup := by
  induction l with
  | nil => intro m hm; simpa using hm
  | cons x xs ih =>
    intro m hm
    rw [List.foldl_cons]
    exact ih _ (insertCount_keys_nodup x hm)

lemma mem_insertCount_keys (m : List (Int × Nat)) (r : Int) :
    r ∈ (insertCount m r).map Prod.fst := by
  rw [insertCount_keys]
  split_ifs with h
  · exact h
  · simp

lemma foldl_insertCount_mem (l : List Int) :
    ∀ (m : List (Int × Nat)), (m.map Prod.fst).Nodup →
      ∀ (r : Int) (n : Nat),
      ((r, n) ∈ l.foldl insertCount m ↔
        (∃ v, (r, v) ∈ m ∧ n = v + l.count r) ∨
        (r ∉ m.map Prod.fst ∧ r ∈ l ∧ n = l.count r)) := by
  induction l with
  | nil =>
    intro m hm r n
    simp
  | cons x xs ih =>
    intro m hm r n
    rw [List.foldl_cons, ih (insertCount m x) (insertCount_keys_nodup x hm) r n]
    by_cases hx : r = x
    · subst hx
      rw [List.count_cons_self]
      constructor
      · rintro (⟨v, hv, hn⟩ | ⟨hnot, _, _⟩)
        · rcases (mem_insertCount_self hm).mp hv with ⟨w, hw, rfl⟩ | ⟨hnk, rfl⟩
          · exact Or.inl ⟨w, hw, by omega⟩
          · exact Or.inr ⟨hnk, List.mem_cons_self _ _, by omega⟩
        · exact absurd (mem_insertCount_keys m r) hnot
      · rintro (⟨v, hv, hn⟩ | ⟨hnot, _, hn⟩)
        · refine Or.inl ⟨v + 1, (mem_insertCount_self hm).mpr (Or.inl ⟨v, hv, rfl⟩), by omega⟩
        · exact Or.inl ⟨1, (mem_insertCount_self hm).mpr (Or.inr ⟨hnot, rfl⟩), by omega⟩
    · have hcnt : (x :: xs).count r = xs.count r := List.count_cons_of_ne hx _
      have hkeys : r ∈ (insertCount m x).map Prod.fst ↔ r ∈ m.map Prod.fst := by
        rw [insertCount_keys]
        split_ifs with h
        · exact Iff.rfl
        · simp [hx]
      rw [hcnt]
      constructor
      · rintro (⟨v, hv, hn⟩ | ⟨hnot, hmem, hn⟩)
        · exact Or.inl ⟨v, (mem_insertCount_ne hx).mp hv, hn⟩
        · exact Or.inr ⟨fun hc => hnot (hkeys.mpr hc), List.mem_cons_of_mem _ hmem, hn⟩
      · rintro (⟨v, hv, hn⟩ | ⟨hnot, hmem, hn⟩)
        · exact Or.inl ⟨v, (mem_insertCount_ne hx).mpr hv, hn⟩
        · refine Or.inr ⟨fun hc => hnot (hkeys.mp hc), ?_, hn⟩
          rcases List.mem_cons.mp hmem with h1 | h1
          · exact absurd h1 hx
          · exact h1

lemma rankCounts_keys_nodup (l : List Int) : ((rankCounts l).map Prod.fst).Nodup :=
  foldl_insertCount_keys_nodup l [] (by simp)

lemma rankCounts_nodup (l : List Int) : (rankCounts l).Nodup :=
  List.Nodup.of_map Prod.fst (rankCounts_keys_nodup l)

lemma mem_rankCounts {l : List Int} {r : Int} {n : Nat} :
    (r, n) ∈ rankCounts l ↔ r ∈ l ∧ n = l.count r := by
  rw [rankCounts, foldl_insertCount_mem l [] (by simp)]
  simp

lemma rankCounts_perm {l1 l2 : List Int} (h : l1.Perm l2) :
    (rankCounts l1).Perm (rankCounts l2) := by
  rw [List.perm_ext_iff_of_nodup (rankCounts_nodup l1) (rankCounts_nodup l2)]
  rintro ⟨r, n⟩
  rw [mem_rankCounts, mem_rankCounts, h.mem_iff, h.count_eq]

lemma insertCount_sum (m : List (Int × Nat)) (r : Int) :
    ((insertCount m r).map Prod.snd).sum = (m.map Prod.snd).sum + 1 := by
  induction m with
  | nil => simp [insertCount]
  | cons p rest ih =>
    obtain ⟨k, v⟩ := p
    rw [insertCount]
    split_ifs with hk
    · simp [List.sum_cons]
      omega
    · simp only [List.map_cons, List.sum_cons, ih]
      omega

lemma foldl_insertCount_sum (l : List Int) :
    ∀ m : List (Int × Nat),
      ((l.foldl insertCount m).map Prod.snd).sum = (m.map Prod.snd).sum + l.length := by
  induction l with
  | nil => intro m; simp
  | cons x xs ih =>
    intro m
    rw [List.foldl_cons, ih, insertCount_sum]
    simp only [List.length_cons]
    omega

lemma countValues_sum (l : List Int) : (countValues l).sum = l.length := by
  rw [countValues, rankCounts, foldl_insertCount_sum]
  simp

/-- The four recognized suit strings of the JSDoc, in lowercase. -/
def validSuits : List String := ["club", "spade", "diamond", "heart"]

lemma count_rank_le_four {hand : List Card} {r : Int}
    (hvalid : ∀ card ∈ hand, lowerString card.suit ∈ validSuits)
    (hnodup : (hand.map (fun card => (card.rank, lowerString card.suit))).Nodup) :
    (hand.map (fun card => card.rank)).count r ≤ 4 := by
  have h1 : (hand.map (fun card => card.rank)).count r
      = (hand.filter (fun card => card.rank == r)).length := by
    rw [List.count_eq_countP, List.countP_map, List.countP_eq_length_filter]
    rfl
  rw [h1]
  set s := hand.filter (fun card => card.rank == r) with hsdef
  have hsub : List.Sublist s hand := List.filter_sublist _
  have hpairs : (s.map (fun card => (card.rank, lowerString card.suit))).Nodup :=
    hnodup.sublist (hsub.map _)
  have hsnodup : s.Nodup := List.Nodup.of_map _ hpairs
  have hinj : ∀ x ∈ s, ∀ y ∈ s, lowerString x.suit = lowerString y.suit → x = y := by
    intro x hx y hy hxy
    have hxr : x.rank = r := by simpa using (List.mem_filter.mp hx).2
    have hyr : y.rank = r := by simpa using (List.mem_filter.mp hy).2
    refine List.inj_on_of_nodup_map hpairs hx hy ?_
    rw [hxr, hyr, hxy]
  have hsuitsNodup : (s.map (fun card => lowerString card.suit)).Nodup :=
    List.Nodup.map_on hinj hsnodup
  have hsubset : s.map (fun card => lowerString card.suit) ⊆ validSuits := by
    intro a ha
    obtain ⟨c, hc, rfl⟩ := List.mem_map.mp ha
    exact hvalid c (hsub.subset hc)
  have hle := (List.subperm_of_subset hsuitsNodup hsubset).length_le
  simpa [validSuits] using hle

lemma countValues_count_four {ranks : List Int} (h : ranks.length = 5) :
    (countValues ranks).count 4 ≤ 1 := by
  by_contra hc
  push_neg at hc
  have h2 : 2 ≤ (countValues ranks).count 4 := hc
  have hsub : List.Sublist (List.replicate 2 4) (countValues ranks) :=
    List.le_count_iff_replicate_sublist.mp h2
  have hsum := hsub.sum_le_sum (fun a _ => Nat.zero_le a)
  rw [countValues_sum, h] at hsum
  have h8 : (List.replicate 2 (4 : Nat)).sum = 8 := by decide
  omega

/-- C7 (amended): for every 5-card hand the `rankCounts` values sum to
5 and at most one entry equals 4; and — under the extra precondition
that every suit lowercases into the four recognized suit strings — a
hand with no duplicate (rank, lowercased suit) card has every count
between 1 and 4.  (Without suit validity the bound fails, see the
counterexample.) -/
theorem spec_C7 :
    ∀ hand : List Card, hand.length = 5 →
      (countValues (hand.map (fun card => card.rank))).sum = 5 ∧
      (countValues (hand.map (fun card => card.rank))).count 4 ≤ 1 ∧
      ((∀ card ∈ hand, lowerString card.suit ∈ validSuits) →
        (hand.map (fun card => (card.rank, lowerString card.suit))).Nodup →
        ∀ p ∈ rankCounts (hand.map (fun card => card.rank)), 1 ≤ p.2 ∧ p.2 ≤ 4) := by
  intro hand h
  have hlen : (hand.map (fun card => card.rank)).length = 5 := by simpa using h
  refine ⟨by rw [countValues_sum, hlen], countValues_count_four hlen, ?_⟩
  intro hvalid hnodup p hp
  obtain ⟨r, n⟩ := p
  rw [mem_rankCounts] at hp
  obtain ⟨hr, hn⟩ := hp
  constructor
  · rw [hn]
    exact List.count_pos_iff.mpr hr
  · rw [hn]
    exact count_rank_le_four hvalid hnodup

theorem spec_C7_witness :
    (countValues (royalSpadesHand.map (fun card => card.rank))).sum = 5 ∧
    1 ≤ (((10 : Int), (1 : Nat))).2 ∧ (((10 : Int), (1 : Nat))).2 ≤ 4 :=
  ⟨(spec_C7 royalSpadesHand (by decide)).1,
   ((spec_C7 royalSpadesHand (by decide)).2.2 (by decide) (by decide)
     ((10 : Int), (1 : Nat)) (by decide)).1,
   ((spec_C7 royalSpadesHand (by decide)).2.2 (by decide) (by decide)
     ((10 : Int), (1 : Nat)) (by decide)).2⟩

/-- Five cards of the same rank with five pairwise-distinct
(unrecognized) suit strings: no duplicate (rank, suit) card, yet the
rank's count is 5. -/
def sameRankHand : List Card :=
  [⟨7, "sa"⟩, ⟨7, "sb"⟩, ⟨7, "sc"⟩, ⟨7, "sd"⟩, ⟨7, "se"⟩]

theorem spec_C7_counterexample :
    sameRankHand.length = 5 ∧
    (sameRankHand.map (fun card => (card.rank, lowerString card.suit))).Nodup ∧
    ¬(∀ p ∈ rankCounts (sameRankHand.map (fun card => card.rank)), 1 ≤ p.2 ∧ p.2 ≤ 4) := by
  decide

/-!  Permutation invariance of the derived quantities. -/

lemma isFlushSuits_eq_all_eq (suits : List String) :
    isFlushSuits suits = true ↔ ∀ a ∈ suits, ∀ b ∈ suits, a = b := by
  cases suits with
  | nil => simp [isFlushSuits]
  | cons s t =>
    unfold isFlushSuits
    simp only [List.headD_cons, List.all_eq_true, decide_eq_true_eq]
    constructor
    · intro h a ha b hb
      rw [h a ha, h b hb]
    · intro h a ha
      exact h a ha s (List.mem_cons_self _ _)

lemma isFlushSuits_perm {s1 s2 : List String} (h : s1.Perm s2) :
    isFlushSuits s1 = isFlushSuits s2 := by
  have hiff : isFlushSuits s1 = true ↔ isFlushSuits s2 = true := by
    rw [isFlushSuits_eq_all_eq, isFlushSuits_eq_all_eq]
    constructor
    · intro hp a ha b hb
      exact hp a (h.mem_iff.mpr ha) b (h.mem_iff.mpr hb)
    · intro hp a ha b hb
      exact hp a (h.mem_iff.mp ha) b (h.mem_iff.mp hb)
  cases hx : isFlushSuits s1 <;> cases hy : isFlushSuits s2 <;> simp_all

lemma insertionSort_le_int_congr {l1 l2 : List Int} (h : l1.Perm l2) :
    List.insertionSort (fun a b => a ≤ b) l1 = List.insertionSort (fun a b => a ≤ b) l2 :=
  List.eq_of_perm_of_sorted
    ((List.perm_insertionSort _ _).trans (h.trans (List.perm_insertionSort _ _).symm))
    (List.sorted_insertionSort _ _) (List.sorted_insertionSort _ _)

lemma insertionSort_ge_nat_congr {l1 l2 : List Nat} (h : l1.Perm l2) :
    List.insertionSort (fun a b => a ≥ b) l1 = List.insertionSort (fun a b => a ≥ b) l2 :=
  List.eq_of_perm_of_sorted
    ((List.perm_insertionSort _ _).trans (h.trans (List.perm_insertionSort _ _).symm))
    (List.sorted_insertionSort _ _) (List.sorted_insertionSort _ _)

lemma countValues_perm {l1 l2 : List Int} (h : l1.Perm l2) :
    (countValues l1).Perm (countValues l2) :=
  (rankCounts_perm h).map Prod.snd

lemma descendingOrder_congr {l1 l2 : List Int} (h : l1.Perm l2) :
    descendingOrder l1 = descendingOrder l2 :=
  insertionSort_ge_nat_congr (countValues_perm h)

lemma numPairs_congr {l1 l2 : List Int} (h : l1.Perm l2) : numPairs l1 = numPairs l2 :=
  ((countValues_perm h).filter _).length_eq

lemma hasThree_congr {l1 l2 : List Int} (h : l1.Perm l2) : hasThree l1 = hasThree l2 := by
  unfold hasThree
  rw [descendingOrder_congr h]

lemma hasFour_congr {l1 l2 : List Int} (h : l1.Perm l2) : hasFour l1 = hasFour l2 := by
  unfold hasFour
  rw [descendingOrder_congr h]

lemma ranksAceHigh_congr {l1 l2 : List Int} (h : l1.Perm l2) :
    ranksAceHigh l1 = ranksAceHigh l2 :=
  insertionSort_le_int_congr (h.map _)

lemma sortedCards_congr {l1 l2 : List Int} (h : l1.Perm l2) :
    sortedCards l1 = sortedCards l2 :=
  insertionSort_le_int_congr h

lemma wheelStraight_congr {l1 l2 : List Int} (h : l1.Perm l2) :
    wheelStraight l1 = wheelStraight l2 := by
  unfold wheelStraight
  rw [sortedCards_congr h]

lemma isStraight_congr {l1 l2 : List Int} (h : l1.Perm l2) :
    isStraight l1 = isStraight l2 := by
  unfold isStraight uniqueAceHigh
  rw [ranksAceHigh_congr h, wheelStraight_congr h]

lemma straightHigh_congr {l1 l2 : List Int} (h : l1.Perm l2) :
    straightHigh l1 = straightHigh l2 := by
  unfold straightHigh
  rw [ranksAceHigh_congr h, wheelStraight_congr h]

lemma evalRanksSuits_congr {r1 r2 : List Int} {s1 s2 : List String}
    (hr : r1.Perm r2) (hf : isFlushSuits s1 = isFlushSuits s2) :
    evalRanksSuits r1 s1 = evalRanksSuits r2 s2 := by
  unfold evalRanksSuits
  rw [isStraight_congr hr, hf, straightHigh_congr hr, ranksAceHigh_congr hr,
    hasFour_congr hr, hasThree_congr hr, numPairs_congr hr]

/-- C9: the classifier is invariant under permutation of the hand: any
reordering of the five cards yields the same category. -/
theorem spec_C9 :
    ∀ hand1 hand2 : List Card, hand1.Perm hand2 →
      evaluatePokerHand hand1 = evaluatePokerHand hand2 := by
  intro hand1 hand2 h
  unfold evaluatePokerHand
  exact evalRanksSuits_congr (h.map _) (isFlushSuits_perm (h.map _))

theorem spec_C9_witness :
    evaluatePokerHand royalSpadesHand =
      evaluatePokerHand
        [⟨1, "spade"⟩, ⟨13, "spade"⟩, ⟨12, "spade"⟩, ⟨11, "spade"⟩, ⟨10, "spade"⟩] :=
  spec_C9 _ _ (by decide)

/-- C10: the category depends only on the multiset of ranks and on the
single boolean "all suits equal after lowercasing": two hands agreeing
on those classify identically, whatever their suit strings are. -/
theorem spec_C10 :
    ∀ hand1 hand2 : List Card,
      (hand1.map (fun card => card.rank)).Perm (hand2.map (fun card => card.rank)) →
      isFlushHand hand1 = isFlushHand hand2 →
      evaluatePokerHand hand1 = evaluatePokerHand hand2 := by
  intro hand1 hand2 hr hf
  unfold isFlushHand at hf
  unfold evaluatePokerHand
  exact evalRanksSuits_congr hr hf

theorem spec_C10_witness :
    evaluatePokerHand
        [⟨2, "club"⟩, ⟨5, "heart"⟩, ⟨9, "club"⟩, ⟨11, "club"⟩, ⟨13, "club"⟩] =
      evaluatePokerHand
        [⟨13, "spade"⟩, ⟨2, "diamond"⟩, ⟨5, "spade"⟩, ⟨9, "heart"⟩, ⟨11, "banana"⟩] :=
  spec_C10 _ _ (by decide) (by decide)
